import Mathlib

/-!
Shallow embedding of the VS1053 MIDI sequencer core (`src/src/MIDI_VS1053.h`,
class `VS1053_MIDI`) and proofs about its claims.

Modelling conventions:
- `uint8_t` parameters are modelled as `Nat`; the C++ type guarantees values
  below 256, which appears as side conditions where relevant.  Where the source
  performs an explicit cast or mask (`& 0x0F`, `(uint8_t)x`), the model applies
  the same operation (`&&& 0x0F`, `% 256`).
- `uint32_t` arithmetic that can wrap (`timeOffsetMs + durationMs`,
  `millis() + durationMs`, `now - sequencerStartMs`) is modelled with explicit
  `% 2^32` via `add32`/`sub32`.
- `millis()` (the clock collaborator) becomes an explicit `now : Nat` argument.
- Bytes written to the chip through `sendMIDI` become a `List Nat` output;
  each operation returns its new state together with the bytes it emitted.
- The fixed C arrays become lists: `tracks` is the list of per-track event
  lists (a track list holds exactly the `trackEventCount` live events),
  `voices` the 32-entry voice pool, `lastChannelInstrument` the 16-entry
  cache.  Members left uninitialized by the constructor but only ever read
  after being written (`sequencerStartMs`, inactive-voice fields) are set
  to 0 in the initial state.
-/

namespace VS1053

/-- 2^32, the modulus of `uint32_t` arithmetic. -/
def U32MOD : Nat := 4294967296

/-- `uint32_t` addition. -/
def add32 (a b : Nat) : Nat := (a + b) % U32MOD

/-- `uint32_t` subtraction `a - b` (for operands below 2^32). -/
def sub32 (a b : Nat) : Nat := (a + U32MOD - b % U32MOD) % U32MOD

/-- `#define SEQ_MAX_TRACKS 8` -/
def SEQ_MAX_TRACKS : Nat := 8

/-- `#define SEQ_MAX_EVENTS 128` (per track) -/
def SEQ_MAX_EVENTS : Nat := 128

/-- `#define SEQ_MAX_VOICES 32` (concurrent active notes) -/
def SEQ_MAX_VOICES : Nat := 32

/-- `struct SeqEvent`.  `inst` and `note` carry the `uint8_t` values of the
`Instrument` and `Note` enums. -/
structure SeqEvent where
  timeOffsetMs : Nat
  channel : Nat
  inst : Nat
  note : Nat
  velocity : Nat
  durationMs : Nat
  played : Bool
deriving Repr, DecidableEq

/-- `struct ActiveVoice`. -/
structure ActiveVoice where
  active : Bool
  channel : Nat
  note : Nat
  offTimeMs : Nat
deriving Repr, DecidableEq

/-- The state owned by one `VS1053_MIDI` instance (sequencer storage,
sequencer run state, voice pool, instrument cache). -/
structure MidiState where
  tracks : List (List SeqEvent)
  trackLoopLengthMs : List Nat
  sequencerRunning : Bool
  sequencerStartMs : Nat
  globalLoopMs : Nat
  voices : List ActiveVoice
  lastChannelInstrument : List Nat
deriving Repr, DecidableEq

/-- The constructor `VS1053_MIDI()`: empty tracks, zero derived lengths,
all voices inactive, instrument cache filled with the invalid value 255,
sequencer stopped, `globalLoopMs = 0`. -/
def initState : MidiState where
  tracks := List.replicate SEQ_MAX_TRACKS []
  trackLoopLengthMs := List.replicate SEQ_MAX_TRACKS 0
  sequencerRunning := false
  sequencerStartMs := 0
  globalLoopMs := 0
  voices := List.replicate SEQ_MAX_VOICES ⟨false, 0, 0, 0⟩
  lastChannelInstrument := List.replicate 16 255

/-- `talkMIDI(cmd, d1, d2)`: the bytes pushed through `sendMIDI`.  For a
Program Change class command (high nibble 0xC) only `cmd` and `d1` go out. -/
def talkMIDI (cmd d1 d2 : Nat) : List Nat :=
  if (cmd &&& 0xF0) ≠ 0xC0 then [cmd, d1, d2] else [cmd, d1]

/-- Bytes emitted by `noteOn(channel, note, vel)`. -/
def noteOnMsg (channel note vel : Nat) : List Nat :=
  talkMIDI (0x90 ||| (channel &&& 0x0F)) (note % 256) vel

/-- Bytes emitted by `noteOff(channel, note)` with the default velocity 64. -/
def noteOffMsg (channel note : Nat) : List Nat :=
  talkMIDI (0x80 ||| (channel &&& 0x0F)) (note % 256) 64

/-- `setInstrument(channel, inst)` acting on the `lastChannelInstrument`
cache: send a Program Change (and record it) only when the cached value for
the masked channel differs from the requested instrument value.  Returns the
new cache and the emitted bytes. -/
def setInstrumentCache (cache : List Nat) (channel inst : Nat) :
    List Nat × List Nat :=
  let ch := channel &&& 0x0F
  let instVal := inst % 256
  if cache.getD ch 255 ≠ instVal then
    (cache.set ch instVal, talkMIDI (0xC0 ||| ch) instVal 0)
  else
    (cache, [])

/-- `setInstrument` on the whole engine state. -/
def setInstrument (s : MidiState) (channel inst : Nat) : MidiState × List Nat :=
  let r := setInstrumentCache s.lastChannelInstrument channel inst
  ({ s with lastChannelInstrument := r.1 }, r.2)

/-- `scheduleVoiceOff(channel, note, offTimeMs)`: linear first-fit scan of the
voice pool; the first inactive slot is claimed, and if every slot is active
the pool is returned unchanged (silent drop). -/
def scheduleVoiceOff : List ActiveVoice → Nat → Nat → Nat → List ActiveVoice
  | [], _, _, _ => []
  | v :: vs, channel, note, offTimeMs =>
    if v.active = false then
      { active := true, channel := channel, note := note,
        offTimeMs := offTimeMs } :: vs
    else
      v :: scheduleVoiceOff vs channel note offTimeMs

/-- The voice-expiry loop at the top of `update()`: every active voice whose
`offTimeMs` is ≤ `now` gets its Note Off emitted and its slot deactivated.
Returns the new pool and the emitted bytes, in slot order. -/
def expireVoices (now : Nat) : List ActiveVoice → List ActiveVoice × List Nat
  | [] => ([], [])
  | v :: vs =>
    let rest := expireVoices now vs
    if v.active = true ∧ v.offTimeMs ≤ now then
      ({ v with active := false } :: rest.1,
       noteOffMsg v.channel v.note ++ rest.2)
    else
      (v :: rest.1, rest.2)

/-- The state threaded through the event-firing scan inside `update()`:
the instrument cache and the voice pool. -/
structure FireState where
  lastChannelInstrument : List Nat
  voices : List ActiveVoice
deriving Repr, DecidableEq

/-- Firing one sequencer event (the body of the `!ev.played && ...` branch of
`update()`): `setInstrument`, `noteOn`, `scheduleVoiceOff(..., now + durationMs)`. -/
def fireEvent (now : Nat) (fs : FireState) (ev : SeqEvent) :
    FireState × List Nat :=
  let pc := setInstrumentCache fs.lastChannelInstrument ev.channel ev.inst
  let onOut := noteOnMsg ev.channel ev.note ev.velocity
  let voices := scheduleVoiceOff fs.voices ev.channel (ev.note % 256)
      (add32 now ev.durationMs)
  (⟨pc.1, voices⟩, pc.2 ++ onOut)

/-- The firing condition of `update()`: `!ev.played && ev.timeOffsetMs <= posInPattern`. -/
def shouldFire (pos : Nat) (ev : SeqEvent) : Bool :=
  !ev.played && decide (ev.timeOffsetMs ≤ pos)

/-- The inner per-event loop of `update()` over one track's events: fire the
due unplayed events (threading cache and voice pool), and clear the `played`
flag of events lapped by the loop wrap. -/
def scanEvents (now pos : Nat) :
    FireState → List SeqEvent → FireState × List SeqEvent × List Nat
  | fs, [] => (fs, [], [])
  | fs, ev :: evs =>
    if shouldFire pos ev then
      let fe := fireEvent now fs ev
      let rest := scanEvents now pos fe.1 evs
      (rest.1, { ev with played := true } :: rest.2.1, fe.2 ++ rest.2.2)
    else if ev.played = true ∧ pos < ev.timeOffsetMs then
      let rest := scanEvents now pos fs evs
      (rest.1, { ev with played := false } :: rest.2.1, rest.2.2)
    else
      let rest := scanEvents now pos fs evs
      (rest.1, ev :: rest.2.1, rest.2.2)

/-- The outer track loop of `update()`: scan the tracks in index order. -/
def scanTracks (now pos : Nat) :
    FireState → List (List SeqEvent) →
    FireState × List (List SeqEvent) × List Nat
  | fs, [] => (fs, [], [])
  | fs, tr :: trs =>
    let r1 := scanEvents now pos fs tr
    let r2 := scanTracks now pos r1.1 trs
    (r2.1, r1.2.1 :: r2.2.1, r1.2.2 ++ r2.2.2)

/-- The largest derived track length, as computed by the loop in `update()`
(`if (trackLoopLengthMs[t] > patternLength) patternLength = ...`). -/
def maxTrackLen (lens : List Nat) : Nat := lens.foldl max 0

/-- The pattern length used by `update()`: `globalLoopMs` when positive,
otherwise the maximum derived track length with 1 substituted for 0. -/
def effectiveLoopLength (s : MidiState) : Nat :=
  if 0 < s.globalLoopMs then s.globalLoopMs
  else if maxTrackLen s.trackLoopLengthMs = 0 then 1
  else maxTrackLen s.trackLoopLengthMs

/-- `posInPattern = (now - sequencerStartMs) % patternLength` as computed by
`update()`. -/
def position (s : MidiState) (now : Nat) : Nat :=
  sub32 now s.sequencerStartMs % effectiveLoopLength s

/-- `update()`: expire due voices, then (only when running) evaluate the
pattern at the current position.  Returns the new state and all bytes sent
during the call, in emission order. -/
def update (s : MidiState) (now : Nat) : MidiState × List Nat :=
  let ex := expireVoices now s.voices
  let s1 := { s with voices := ex.1 }
  if s1.sequencerRunning = false then
    (s1, ex.2)
  else
    let pos := position s1 now
    let r := scanTracks now pos ⟨s1.lastChannelInstrument, s1.voices⟩ s1.tracks
    ({ s1 with lastChannelInstrument := r.1.lastChannelInstrument,
               voices := r.1.voices,
               tracks := r.2.1 },
     ex.2 ++ r.2.2)

/-- `clearTrack(track)`: out-of-range index is a no-op; otherwise the track's
events and derived length are reset. -/
def clearTrack (s : MidiState) (track : Nat) : MidiState :=
  if track ≥ SEQ_MAX_TRACKS then s
  else
    { s with tracks := s.tracks.set track [],
             trackLoopLengthMs := s.trackLoopLengthMs.set track 0 }

/-- `addEvent(track, timeOffsetMs, channel, inst, note, vel, durationMs)`:
fails on an out-of-range track or a full track; otherwise appends the event
with `played = false` and extends the track's derived loop length to
`timeOffsetMs + durationMs` when that exceeds it. -/
def addEvent (s : MidiState) (track timeOffsetMs channel inst note vel
    durationMs : Nat) : MidiState × Bool :=
  if track ≥ SEQ_MAX_TRACKS then (s, false)
  else if (s.tracks.getD track []).length ≥ SEQ_MAX_EVENTS then (s, false)
  else
    let e : SeqEvent :=
      ⟨timeOffsetMs, channel, inst, note, vel, durationMs, false⟩
    let endMs := add32 timeOffsetMs durationMs
    let cur := s.trackLoopLengthMs.getD track 0
    ({ s with
        tracks := s.tracks.set track ((s.tracks.getD track []) ++ [e]),
        trackLoopLengthMs :=
          if cur < endMs then s.trackLoopLengthMs.set track endMs
          else s.trackLoopLengthMs },
     true)

/-- `startSequencer(loopMs)` at clock value `now`: record the start time, set
the running flag, store the loop length, and clear every event's `played`
flag in every track. -/
def startSequencer (s : MidiState) (now loopMs : Nat) : MidiState :=
  { s with sequencerStartMs := now,
           sequencerRunning := true,
           globalLoopMs := loopMs,
           tracks := s.tracks.map (List.map fun e => { e with played := false }) }

/-- `stopSequencer()`. -/
def stopSequencer (s : MidiState) : MidiState :=
  { s with sequencerRunning := false }

/-- `playNoteAsync(channel, inst, note, durationMs, vel)` at clock value
`now`: the immediate-play path (cache-checked Program Change, Note On,
voice reservation due at `now + durationMs`). -/
def playNoteAsync (s : MidiState) (now channel inst note durationMs vel : Nat) :
    MidiState × List Nat :=
  let pc := setInstrumentCache s.lastChannelInstrument channel inst
  let onOut := noteOnMsg channel note vel
  let voices := scheduleVoiceOff s.voices channel (note % 256)
      (add32 now durationMs)
  ({ s with lastChannelInstrument := pc.1, voices := voices }, pc.2 ++ onOut)

/-! ## Derived notions used to state the claims -/

/-- The per-event `played`-flag transition performed by one pass of the
`update()` scan at pattern position `pos`: an unplayed event whose offset has
been reached is marked played; a played event whose offset lies strictly
beyond the position is re-armed; every other event is untouched. -/
def eventFlagStep (pos : Nat) (ev : SeqEvent) : SeqEvent :=
  if shouldFire pos ev then { ev with played := true }
  else if ev.played = true ∧ pos < ev.timeOffsetMs then { ev with played := false }
  else ev

/-- Fire a list of events in order, threading the instrument cache and the
voice pool through the successive `fireEvent` calls and concatenating their
output bytes. -/
def fireAll (now : Nat) : FireState → List SeqEvent → FireState × List Nat
  | fs, [] => (fs, [])
  | fs, ev :: evs =>
    let fe := fireEvent now fs ev
    let rest := fireAll now fe.1 evs
    (rest.1, fe.2 ++ rest.2)

/-- The events an `update()` at position `pos` fires, in evaluation order:
track order first, append order within a track. -/
def firedEvents (pos : Nat) : List (List SeqEvent) → List SeqEvent
  | [] => []
  | tr :: trs => tr.filter (shouldFire pos) ++ firedEvents pos trs

/-- The Note Off bytes the voice-expiry loop emits at time `now`: those of the
active due voices, in slot order. -/
def dueOffMsgs (now : Nat) : List ActiveVoice → List Nat
  | [] => []
  | v :: vs =>
    (if v.active = true ∧ v.offTimeMs ≤ now then noteOffMsg v.channel v.note
     else []) ++ dueOffMsgs now vs

/-- `uint32` end time `timeOffsetMs + durationMs` of an event. -/
def eventEndMs (ev : SeqEvent) : Nat := add32 ev.timeOffsetMs ev.durationMs

/-- The derived-loop-length invariant of one track: the stored
`trackLoopLengthMs` entry equals the maximum of `timeOffsetMs + durationMs`
over the track's events (0 for an empty track). -/
def derivedLenOk (s : MidiState) (t : Nat) : Prop :=
  s.trackLoopLengthMs.getD t 0 =
    ((s.tracks.getD t []).map eventEndMs).foldr max 0

/-- Number of Note On status bytes for channel 0 (0x90 = 144) in an output
byte list.  In the concrete scenarios below every data byte is ≤ 127, so this
counts exactly the Note On messages. -/
def countNoteOn (out : List Nat) : Nat := out.countP (fun b => b == 144)

/-! Concrete states for the claim-C1 scenario: a single track holding one
event with offset 0 and duration 100, started at clock 1000 with explicit
loop length 200, then updated at clock 1000, 1050 and 1200 (elapsed 0, 50
and 200). -/

def c1Loaded : MidiState := (addEvent initState 0 0 0 0 60 100 100).1

def c1Started : MidiState := startSequencer c1Loaded 1000 200

def c1Tick0 : MidiState × List Nat := update c1Started 1000

def c1Tick50 : MidiState × List Nat := update c1Tick0.1 1050

def c1Tick200 : MidiState × List Nat := update c1Tick50.1 1200

/-- A small running state used as a concrete witness input: one event at
offset 10 with duration 20, sequencer started at clock 0 with loop length 50. -/
def wStateA : MidiState :=
  startSequencer (addEvent initState 0 10 0 0 60 100 20).1 0 50

/-- A running state whose only event lies past the explicit loop length:
offset 10, duration 5, loop length 8. -/
def wStateB : MidiState :=
  startSequencer (addEvent initState 0 10 0 0 60 100 5).1 0 8

/-- A stopped state with one voice reservation due at clock 100
(`playNoteAsync` on channel 1 at clock 0 with duration 100). -/
def wStateC : MidiState :=
  (playNoteAsync initState 0 1 5 60 100 110).1

/-- A completely full voice pool. -/
def fullPool : List ActiveVoice :=
  List.replicate SEQ_MAX_VOICES ⟨true, 0, 0, 99⟩

/-! ## List helper lemmas -/

theorem listGetD_set_self {α : Type} (l : List α) (i : Nat) (a d : α)
    (h : i < l.length) : (l.set i a).getD i d = a := by
  induction l generalizing i with
  | nil => simp at h
  | cons x xs ih =>
    cases i with
    | zero => simp
    | succ n =>
      simp only [List.set, List.getD_cons_succ]
      exact ih n (by simpa using h)

theorem listGetD_set_ne {α : Type} (l : List α) (i j : Nat) (a d : α)
    (h : i ≠ j) : (l.set i a).getD j d = l.getD j d := by
  induction l generalizing i j with
  | nil => simp
  | cons x xs ih =>
    cases i with
    | zero =>
      cases j with
      | zero => exact absurd rfl h
      | succ m => simp
    | succ n =>
      cases j with
      | zero => simp
      | succ m =>
        simp only [List.set, List.getD_cons_succ]
        exact ih n m (fun e => h (by rw [e]))

theorem listGetD_map_nilmap {α β : Type} (g : List α → List β)
    (hg : g [] = []) (l : List (List α)) (t : Nat) :
    (l.map g).getD t [] = g (l.getD t []) := by
  induction l generalizing t with
  | nil => simp [hg]
  | cons x xs ih =>
    cases t with
    | zero => simp
    | succ n => simpa using ih n

theorem foldr_max_append_singleton (l : List Nat) (x : Nat) :
    (l ++ [x]).foldr max 0 = max (l.foldr max 0) x := by
  induction l with
  | nil => simp
  | cons a l ih =>
    simp only [List.cons_append, List.foldr_cons, ih]
    exact (Nat.max_assoc a (l.foldr max 0) x).symm

theorem foldl_max_le_start (l : List Nat) (a : Nat) : a ≤ l.foldl max a := by
  induction l generalizing a with
  | nil => simp
  | cons x l ih => exact le_trans (Nat.le_max_left a x) (ih (max a x))

theorem mem_le_foldl_max (l : List Nat) (a x : Nat) (hx : x ∈ l) :
    x ≤ l.foldl max a := by
  induction l generalizing a with
  | nil => simp at hx
  | cons y l ih =>
    rcases List.mem_cons.mp hx with h | h
    · subst h
      exact le_trans (Nat.le_max_right a x) (foldl_max_le_start l (max a x))
    · exact ih (max a y) h

/-! ## Characterizations of the `update()` phases -/

theorem expireVoices_fst (now : Nat) (vs : List ActiveVoice) :
    (expireVoices now vs).1 =
      vs.map (fun v =>
        if v.active = true ∧ v.offTimeMs ≤ now then { v with active := false }
        else v) := by
  induction vs with
  | nil => simp [expireVoices]
  | cons v vs ih =>
    by_cases h : v.active = true ∧ v.offTimeMs ≤ now
    · simp [expireVoices, h, ih]
    · simp [expireVoices, h, ih]

theorem expireVoices_snd (now : Nat) (vs : List ActiveVoice) :
    (expireVoices now vs).2 = dueOffMsgs now vs := by
  induction vs with
  | nil => simp [expireVoices, dueOffMsgs]
  | cons v vs ih =>
    by_cases h : v.active = true ∧ v.offTimeMs ≤ now
    · simp [expireVoices, dueOffMsgs, h, ih]
    · simp [expireVoices, dueOffMsgs, h, ih]

theorem fireAll_append (now : Nat) (l1 l2 : List SeqEvent) (fs : FireState) :
    fireAll now fs (l1 ++ l2) =
      ((fireAll now (fireAll now fs l1).1 l2).1,
       (fireAll now fs l1).2 ++ (fireAll now (fireAll now fs l1).1 l2).2) := by
  induction l1 generalizing fs with
  | nil => simp [fireAll]
  | cons ev l1 ih => simp [fireAll, ih]

theorem scanEvents_eq (now pos : Nat) (fs : FireState) (evs : List SeqEvent) :
    scanEvents now pos fs evs =
      ((fireAll now fs (evs.filter (shouldFire pos))).1,
       evs.map (eventFlagStep pos),
       (fireAll now fs (evs.filter (shouldFire pos))).2) := by
  induction evs generalizing fs with
  | nil => simp [scanEvents, fireAll]
  | cons ev evs ih =>
    by_cases h : shouldFire pos ev
    · simp [scanEvents, fireAll, eventFlagStep, h, ih]
    · by_cases h2 : ev.played = true ∧ pos < ev.timeOffsetMs
      · simp [scanEvents, eventFlagStep, h, h2, ih]
      · simp [scanEvents, eventFlagStep, h, h2, ih]

theorem scanTracks_eq (now pos : Nat) (fs : FireState)
    (trs : List (List SeqEvent)) :
    scanTracks now pos fs trs =
      ((fireAll now fs (firedEvents pos trs)).1,
       trs.map (List.map (eventFlagStep pos)),
       (fireAll now fs (firedEvents pos trs)).2) := by
  induction trs generalizing fs with
  | nil => simp [scanTracks, fireAll, firedEvents]
  | cons tr trs ih =>
    simp [scanTracks, firedEvents, scanEvents_eq, ih, fireAll_append]

theorem update_not_running (s : MidiState) (now : Nat)
    (h : s.sequencerRunning = false) :
    update s now = ({ s with voices := (expireVoices now s.voices).1 },
                    (expireVoices now s.voices).2) := by
  simp [update, h]

theorem update_running (s : MidiState) (now : Nat)
    (h : s.sequencerRunning = true) :
    update s now =
      ({ s with
          lastChannelInstrument :=
            (fireAll now ⟨s.lastChannelInstrument, (expireVoices now s.voices).1⟩
              (firedEvents (position s now) s.tracks)).1.lastChannelInstrument,
          voices :=
            (fireAll now ⟨s.lastChannelInstrument, (expireVoices now s.voices).1⟩
              (firedEvents (position s now) s.tracks)).1.voices,
          tracks := s.tracks.map (List.map (eventFlagStep (position s now))) },
       (expireVoices now s.voices).2 ++
         (fireAll now ⟨s.lastChannelInstrument, (expireVoices now s.voices).1⟩
           (firedEvents (position s now) s.tracks)).2) := by
  simp [update, h, scanTracks_eq, position, effectiveLoopLength]

theorem effectiveLoopLength_pos (s : MidiState) : 0 < effectiveLoopLength s := by
  unfold effectiveLoopLength
  split
  · assumption
  · split
    · exact Nat.one_pos
    · omega

theorem position_lt_effectiveLoopLength (s : MidiState) (now : Nat) :
    position s now < effectiveLoopLength s :=
  Nat.mod_lt _ (effectiveLoopLength_pos s)

theorem listGetD_replicate {α : Type} (n : Nat) (a : α) (t : Nat) :
    (List.replicate n a).getD t a = a := by
  induction n generalizing t with
  | zero => simp
  | succ m ih =>
    cases t with
    | zero => simp [List.replicate]
    | succ k =>
      rw [List.replicate, List.getD_cons_succ]
      exact ih k

theorem scheduleVoiceOff_length (vs : List ActiveVoice) (c n t : Nat) :
    (scheduleVoiceOff vs c n t).length = vs.length := by
  induction vs with
  | nil => rfl
  | cons v vs ih =>
    by_cases h : v.active = false
    · simp [scheduleVoiceOff, h]
    · simp [scheduleVoiceOff, h, ih]

theorem scheduleVoiceOff_full (vs : List ActiveVoice) (c n t : Nat)
    (h : ∀ v ∈ vs, v.active = true) : scheduleVoiceOff vs c n t = vs := by
  induction vs with
  | nil => rfl
  | cons v vs ih =>
    have hv : v.active = true := h v (by simp)
    simp [scheduleVoiceOff, hv, ih (fun w hw => h w (by simp [hw]))]

theorem scheduleVoiceOff_firstfit (pre : List ActiveVoice) (v : ActiveVoice)
    (post : List ActiveVoice) (c n t : Nat)
    (hpre : ∀ w ∈ pre, w.active = true) (hv : v.active = false) :
    scheduleVoiceOff (pre ++ v :: post) c n t =
      pre ++ { active := true, channel := c, note := n, offTimeMs := t } :: post := by
  induction pre with
  | nil => simp [scheduleVoiceOff, hv]
  | cons w pre ih =>
    have hw : w.active = true := hpre w (by simp)
    simp [scheduleVoiceOff, hw, ih (fun u hu => hpre u (by simp [hu]))]

/-! ## Claim theorems -/

/-- Claim C1: in the claimed scenario — a single track holding exactly one
event with offset 0 and duration 100, sequencer started at clock 1000 with
explicit loop length 200 — the update at elapsed time 0 sends exactly one
Note On and the update at elapsed time 50 sends none, as claimed; but the
update at elapsed time 200 (position 0 of the next cycle) also sends NO
Note On, contradicting the claim that the event fires again.  The event's
`played` flag is still `true` after that update: the re-arming branch of
`update()` requires `timeOffsetMs > posInPattern`, which an event with
offset 0 can never satisfy, so an offset-0 event is never re-armed and
fires only in the very first cycle. -/
theorem claim_C1_no_refire_at_wrap :
    countNoteOn c1Tick0.2 = 1 ∧
    countNoteOn c1Tick50.2 = 0 ∧
    countNoteOn c1Tick200.2 = 0 ∧
    (c1Tick200.1.tracks.getD 0 []).map SeqEvent.played = [true] := by
  decide

/-- Claim C2: on every `update()` call while the sequencer runs, the stored
events are transformed exactly by the per-event rule `eventFlagStep` at the
computed position (fire-and-set when unplayed with offset ≤ position, re-arm
when played with offset > position, untouched otherwise), and the bytes
emitted after the voice-expiry prefix are exactly those of firing the due
unplayed events in evaluation order — track order, then append order —
threading the instrument cache and voice pool through the successive
firings. -/
theorem claim_C2_scan_rule (s : MidiState) (now : Nat)
    (h : s.sequencerRunning = true) :
    (update s now).1.tracks =
      s.tracks.map (List.map (eventFlagStep (position s now))) ∧
    (update s now).2 =
      (expireVoices now s.voices).2 ++
        (fireAll now ⟨s.lastChannelInstrument, (expireVoices now s.voices).1⟩
          (firedEvents (position s now) s.tracks)).2 := by
  rw [update_running s now h]
  exact ⟨rfl, rfl⟩

/-- Witness for C2 at a concrete running state and clock value. -/
theorem claim_C2_scan_rule_witness :
    (update wStateA 15).1.tracks =
      wStateA.tracks.map (List.map (eventFlagStep (position wStateA 15))) ∧
    (update wStateA 15).2 =
      (expireVoices 15 wStateA.voices).2 ++
        (fireAll 15 ⟨wStateA.lastChannelInstrument,
            (expireVoices 15 wStateA.voices).1⟩
          (firedEvents (position wStateA 15) wStateA.tracks)).2 :=
  claim_C2_scan_rule wStateA 15 (by decide)

/-- Claim C3: within one `update()` call the voice-pool expiry runs first —
every active reservation due at `now` has its Note Off emitted (in slot
order) and its slot deactivated; those bytes are a prefix of the whole
call's output, and the pattern scan (when running) starts from the expired
pool.  The expiry step also runs when the sequencer is stopped, in which
case the call does nothing else. -/
theorem claim_C3_expiry_before_events (s : MidiState) (now : Nat) :
    (expireVoices now s.voices).1 =
      s.voices.map (fun v =>
        if v.active = true ∧ v.offTimeMs ≤ now then { v with active := false }
        else v) ∧
    (expireVoices now s.voices).2 = dueOffMsgs now s.voices ∧
    (∃ rest, (update s now).2 = (expireVoices now s.voices).2 ++ rest) ∧
    (s.sequencerRunning = true →
      (update s now).2 =
        (expireVoices now s.voices).2 ++
          (fireAll now ⟨s.lastChannelInstrument,
              (expireVoices now s.voices).1⟩
            (firedEvents (position s now) s.tracks)).2) ∧
    (s.sequencerRunning = false →
      update s now = ({ s with voices := (expireVoices now s.voices).1 },
                      (expireVoices now s.voices).2)) := by
  refine ⟨expireVoices_fst now s.voices, expireVoices_snd now s.voices,
    ?_, ?_, ?_⟩
  · cases hr : s.sequencerRunning
    · exact ⟨[], by rw [update_not_running s now hr, List.append_nil]⟩
    · exact ⟨_, by rw [update_running s now hr]⟩
  · intro hr
    rw [update_running s now hr]
  · intro hr
    exact update_not_running s now hr

/-- Witness for C3: a stopped state with one due reservation; the update
still expires it and does nothing else. -/
theorem claim_C3_expiry_before_events_witness :
    update wStateC 150 =
      ({ wStateC with voices := (expireVoices 150 wStateC.voices).1 },
       (expireVoices 150 wStateC.voices).2) :=
  (claim_C3_expiry_before_events wStateC 150).2.2.2.2 (by decide)

/-- Claim C4: `scheduleVoiceOff` scans the fixed pool (32 slots in the real
instance) linearly: it preserves the pool size, it claims the first inactive
slot with the given channel, pitch and due time while leaving every other
slot untouched, and when every slot is active it returns the pool completely
unchanged — a silent failure with no error path. -/
theorem claim_C4_pool_first_fit (voices : List ActiveVoice)
    (channel note offTimeMs : Nat) :
    initState.voices.length = SEQ_MAX_VOICES ∧
    (scheduleVoiceOff voices channel note offTimeMs).length = voices.length ∧
    ((∀ v ∈ voices, v.active = true) →
      scheduleVoiceOff voices channel note offTimeMs = voices) ∧
    (∀ pre v post, voices = pre ++ v :: post →
      (∀ w ∈ pre, w.active = true) → v.active = false →
      scheduleVoiceOff voices channel note offTimeMs =
        pre ++ { active := true, channel := channel, note := note,
                 offTimeMs := offTimeMs } :: post) := by
  refine ⟨by decide, scheduleVoiceOff_length voices channel note offTimeMs,
    scheduleVoiceOff_full voices channel note offTimeMs, ?_⟩
  intro pre v post heq hpre hv
  rw [heq]
  exact scheduleVoiceOff_firstfit pre v post channel note offTimeMs hpre hv

/-- Witness for C4: on a completely full 32-slot pool the reservation leaves
the pool unchanged. -/
theorem claim_C4_pool_first_fit_witness :
    scheduleVoiceOff fullPool 1 60 500 = fullPool :=
  (claim_C4_pool_first_fit fullPool 1 60 500).2.2.1 (by decide)

/-- Claim C5: for a channel below 16 and an instrument below 128,
`setInstrument` sends a Program Change exactly when the requested instrument
differs from the channel's cached entry (the unset sentinel 255 always
differs, since instruments are ≤ 127); when it sends, the cache entry is
updated to the requested instrument; when it skips, nothing changes at all;
and the cache entries of every other channel are untouched either way. -/
theorem claim_C5_program_change_dedup (s : MidiState) (channel inst : Nat)
    (hch : channel < 16) (hinst : inst < 128)
    (hlen : s.lastChannelInstrument.length = 16) :
    ((setInstrument s channel inst).2 ≠ [] ↔
      (s.lastChannelInstrument.getD channel 255 ≠ inst ∨
       s.lastChannelInstrument.getD channel 255 = 255)) ∧
    (s.lastChannelInstrument.getD channel 255 ≠ inst →
      (setInstrument s channel inst).2 = [0xC0 ||| channel, inst] ∧
      (setInstrument s channel inst).1.lastChannelInstrument =
        s.lastChannelInstrument.set channel inst) ∧
    (s.lastChannelInstrument.getD channel 255 = inst →
      setInstrument s channel inst = (s, [])) ∧
    (∀ ch2, ch2 ≠ channel →
      (setInstrument s channel inst).1.lastChannelInstrument.getD ch2 255 =
        s.lastChannelInstrument.getD ch2 255) ∧
    (setInstrument s channel inst).1.tracks = s.tracks ∧
    (setInstrument s channel inst).1.voices = s.voices := by
  have hmask : channel &&& 0x0F = channel := by
    interval_cases channel <;> rfl
  have hmod : inst % 256 = inst := Nat.mod_eq_of_lt (by omega)
  by_cases hc : s.lastChannelInstrument.getD channel 255 = inst
  · have hc' : s.lastChannelInstrument[channel]?.getD 255 = inst := by
      rw [← List.getD_eq_getElem?_getD]
      exact hc
    have hskip : setInstrument s channel inst = (s, []) := by
      simp [setInstrument, setInstrumentCache, hmask, hmod, hc']
    refine ⟨?_, ?_, ?_, ?_, ?_, ?_⟩
    · rw [hskip]
      simp [hc, hc']
      omega
    · intro h
      exact absurd hc h
    · intro _
      exact hskip
    · intro ch2 _
      rw [hskip]
    · rw [hskip]
    · rw [hskip]
  · have hc' : ¬s.lastChannelInstrument[channel]?.getD 255 = inst := by
      rw [← List.getD_eq_getElem?_getD]
      exact hc
    have hcmd : ((0xC0 ||| channel) &&& 0xF0) = 0xC0 := by
      interval_cases channel <;> rfl
    have hsend : setInstrument s channel inst =
        ({ s with lastChannelInstrument :=
             s.lastChannelInstrument.set channel inst },
         [0xC0 ||| channel, inst]) := by
      simp [setInstrument, setInstrumentCache, talkMIDI, hmask, hmod, hc', hcmd]
    refine ⟨?_, ?_, ?_, ?_, ?_, ?_⟩
    · rw [hsend]
      exact iff_of_true (by simp) (Or.inl hc)
    · intro _
      rw [hsend]
      exact ⟨rfl, rfl⟩
    · intro h
      exact absurd h hc
    · intro ch2 hne
      rw [hsend]
      exact listGetD_set_ne _ channel ch2 _ _ (fun e => hne e.symm)
    · rw [hsend]
    · rw [hsend]

/-- Witness for C5: on the fresh cache (all entries unset), requesting
instrument 42 on channel 3 sends the Program Change and records it. -/
theorem claim_C5_program_change_dedup_witness :
    (setInstrument initState 3 42).2 = [0xC0 ||| 3, 42] ∧
    (setInstrument initState 3 42).1.lastChannelInstrument =
      initState.lastChannelInstrument.set 3 42 :=
  (claim_C5_program_change_dedup initState 3 42 (by decide) (by decide)
    (by decide)).2.1 (by decide)

/-- Claim C6: the derived loop length of a track always equals the maximum of
`timeOffsetMs + durationMs` (uint32 addition) over the track's stored events:
the invariant holds in the initial state, is preserved by every `addEvent`
call (successful or not), and is re-established at zero by `clearTrack`; no
other operation touches a track's event list or derived length. -/
theorem claim_C6_derived_length :
    (∀ t, derivedLenOk initState t) ∧
    (∀ s track timeOffsetMs channel inst note vel durationMs t,
      s.tracks.length = SEQ_MAX_TRACKS →
      s.trackLoopLengthMs.length = SEQ_MAX_TRACKS →
      derivedLenOk s t →
      derivedLenOk
        (addEvent s track timeOffsetMs channel inst note vel durationMs).1 t) ∧
    (∀ s track t,
      s.tracks.length = SEQ_MAX_TRACKS →
      s.trackLoopLengthMs.length = SEQ_MAX_TRACKS →
      derivedLenOk s t → derivedLenOk (clearTrack s track) t) := by
  refine ⟨?_, ?_, ?_⟩
  · intro t
    unfold derivedLenOk initState
    rw [listGetD_replicate, listGetD_replicate]
    rfl
  · intro s track timeOffsetMs channel inst note vel durationMs t hT hL hinv
    by_cases h1 : track ≥ SEQ_MAX_TRACKS
    · have : (addEvent s track timeOffsetMs channel inst note vel
          durationMs).1 = s := by
        unfold addEvent
        rw [if_pos h1]
      rw [this]
      exact hinv
    by_cases h2 : (s.tracks.getD track []).length ≥ SEQ_MAX_EVENTS
    · have : (addEvent s track timeOffsetMs channel inst note vel
          durationMs).1 = s := by
        unfold addEvent
        rw [if_neg h1, if_pos h2]
      rw [this]
      exact hinv
    have htrk : track < SEQ_MAX_TRACKS := lt_of_not_ge h1
    have hres : (addEvent s track timeOffsetMs channel inst note vel
        durationMs).1 =
        { s with
          tracks := s.tracks.set track ((s.tracks.getD track []) ++
            [⟨timeOffsetMs, channel, inst, note, vel, durationMs, false⟩]),
          trackLoopLengthMs :=
            if s.trackLoopLengthMs.getD track 0 <
                add32 timeOffsetMs durationMs
            then s.trackLoopLengthMs.set track (add32 timeOffsetMs durationMs)
            else s.trackLoopLengthMs } := by
      unfold addEvent
      rw [if_neg h1, if_neg h2]
    rw [hres]
    unfold derivedLenOk at hinv ⊢
    dsimp only
    by_cases ht : t = track
    · subst ht
      rw [listGetD_set_self _ _ _ _ (hT ▸ htrk), List.map_append,
        List.map_singleton, foldr_max_append_singleton]
      by_cases hcur : s.trackLoopLengthMs.getD t 0 <
          add32 timeOffsetMs durationMs
      · rw [if_pos hcur, listGetD_set_self _ _ _ _ (hL ▸ htrk), ← hinv]
        exact (Nat.max_eq_right (Nat.le_of_lt hcur)).symm
      · rw [if_neg hcur, ← hinv]
        exact (Nat.max_eq_left (Nat.le_of_not_lt hcur)).symm
    · rw [listGetD_set_ne _ track t _ _ (fun e => ht e.symm)]
      by_cases hcur : s.trackLoopLengthMs.getD track 0 <
          add32 timeOffsetMs durationMs
      · rw [if_pos hcur, listGetD_set_ne _ track t _ _ (fun e => ht e.symm)]
        exact hinv
      · rw [if_neg hcur]
        exact hinv
  · intro s track t hT hL hinv
    unfold clearTrack
    by_cases h1 : track ≥ SEQ_MAX_TRACKS
    · rw [if_pos h1]
      exact hinv
    · rw [if_neg h1]
      unfold derivedLenOk at hinv ⊢
      dsimp only
      by_cases ht : t = track
      · subst ht
        rw [listGetD_set_self _ _ _ _ (hL ▸ lt_of_not_ge h1),
          listGetD_set_self _ _ _ _ (hT ▸ lt_of_not_ge h1)]
        rfl
      · rw [listGetD_set_ne _ track t _ _ (fun e => ht e.symm),
          listGetD_set_ne _ track t _ _ (fun e => ht e.symm)]
        exact hinv

/-- Witness for C6: the invariant holds on track 0 after one successful
append to the fresh engine. -/
theorem claim_C6_derived_length_witness :
    derivedLenOk (addEvent initState 0 5 0 0 60 100 7).1 0 :=
  claim_C6_derived_length.2.1 initState 0 5 0 0 60 100 7 0 rfl rfl
    (claim_C6_derived_length.1 0)

/-- Claim C7: `addEvent` fails — returning `false` with the whole state
unchanged — exactly when the track index is ≥ 8 (`SEQ_MAX_TRACKS`) or the
track already holds 128 (`SEQ_MAX_EVENTS`) events; on success it returns
`true`, appends the event at the end of that track with its `played` flag
false, and touches nothing outside that track: every other track's events
and derived length, the voice pool, the run state, the start time, the loop
length and the instrument cache are all unchanged. -/
theorem claim_C7_addEvent_contract (s : MidiState)
    (track timeOffsetMs channel inst note vel durationMs : Nat)
    (hT : s.tracks.length = SEQ_MAX_TRACKS) :
    (track ≥ SEQ_MAX_TRACKS ∨
        (s.tracks.getD track []).length ≥ SEQ_MAX_EVENTS →
      addEvent s track timeOffsetMs channel inst note vel durationMs =
        (s, false)) ∧
    (track < SEQ_MAX_TRACKS →
      (s.tracks.getD track []).length < SEQ_MAX_EVENTS →
      (addEvent s track timeOffsetMs channel inst note vel durationMs).2 =
        true ∧
      (addEvent s track timeOffsetMs channel inst note vel
          durationMs).1.tracks.getD track [] =
        s.tracks.getD track [] ++
          [⟨timeOffsetMs, channel, inst, note, vel, durationMs, false⟩] ∧
      (∀ t2, t2 ≠ track →
        (addEvent s track timeOffsetMs channel inst note vel
            durationMs).1.tracks.getD t2 [] = s.tracks.getD t2 [] ∧
        (addEvent s track timeOffsetMs channel inst note vel
            durationMs).1.trackLoopLengthMs.getD t2 0 =
          s.trackLoopLengthMs.getD t2 0) ∧
      (addEvent s track timeOffsetMs channel inst note vel
          durationMs).1.voices = s.voices ∧
      (addEvent s track timeOffsetMs channel inst note vel
          durationMs).1.sequencerRunning = s.sequencerRunning ∧
      (addEvent s track timeOffsetMs channel inst note vel
          durationMs).1.sequencerStartMs = s.sequencerStartMs ∧
      (addEvent s track timeOffsetMs channel inst note vel
          durationMs).1.globalLoopMs = s.globalLoopMs ∧
      (addEvent s track timeOffsetMs channel inst note vel
          durationMs).1.lastChannelInstrument = s.lastChannelInstrument) := by
  constructor
  · intro hfail
    unfold addEvent
    by_cases h1 : track ≥ SEQ_MAX_TRACKS
    · rw [if_pos h1]
    · rw [if_neg h1, if_pos (hfail.resolve_left h1)]
  · intro ht hcnt
    have h1 : ¬track ≥ SEQ_MAX_TRACKS := Nat.not_le.mpr ht
    have h2 : ¬(s.tracks.getD track []).length ≥ SEQ_MAX_EVENTS :=
      Nat.not_le.mpr hcnt
    have hres : addEvent s track timeOffsetMs channel inst note vel
        durationMs =
        ({ s with
           tracks := s.tracks.set track ((s.tracks.getD track []) ++
             [⟨timeOffsetMs, channel, inst, note, vel, durationMs, false⟩]),
           trackLoopLengthMs :=
             if s.trackLoopLengthMs.getD track 0 <
                 add32 timeOffsetMs durationMs
             then s.trackLoopLengthMs.set track
               (add32 timeOffsetMs durationMs)
             else s.trackLoopLengthMs }, true) := by
      unfold addEvent
      rw [if_neg h1, if_neg h2]
    rw [hres]
    refine ⟨rfl, ?_, ?_, rfl, rfl, rfl, rfl, rfl⟩
    · exact listGetD_set_self _ _ _ _ (hT ▸ ht)
    · intro t2 hne
      refine ⟨listGetD_set_ne _ track t2 _ _ (fun e => hne e.symm), ?_⟩
      by_cases hcur : s.trackLoopLengthMs.getD track 0 <
          add32 timeOffsetMs durationMs
      · dsimp only
        rw [if_pos hcur]
        exact listGetD_set_ne _ track t2 _ _ (fun e => hne e.symm)
      · dsimp only
        rw [if_neg hcur]

/-- Witness for C7: a successful append to an empty track 0 of the fresh
engine returns true and stores the event. -/
theorem claim_C7_addEvent_contract_witness :
    (addEvent initState 0 1 2 3 4 5 6).2 = true ∧
    (addEvent initState 0 1 2 3 4 5 6).1.tracks.getD 0 [] =
      initState.tracks.getD 0 [] ++ [⟨1, 2, 3, 4, 5, 6, false⟩] :=
  ⟨((claim_C7_addEvent_contract initState 0 1 2 3 4 5 6 rfl).2 (by decide)
      (by decide)).1,
   ((claim_C7_addEvent_contract initState 0 1 2 3 4 5 6 rfl).2 (by decide)
      (by decide)).2.1⟩

/-- Claim C8: `startSequencer`, from any prior state, sets the running flag,
records the start timestamp as the current clock value, stores the given
loop length, clears the `played` flag of every stored event in every track
(leaving every other event field intact), and changes nothing else. -/
theorem claim_C8_start_resets (s : MidiState) (now loopMs : Nat) :
    (startSequencer s now loopMs).sequencerRunning = true ∧
    (startSequencer s now loopMs).sequencerStartMs = now ∧
    (startSequencer s now loopMs).globalLoopMs = loopMs ∧
    (startSequencer s now loopMs).tracks =
      s.tracks.map (List.map fun e => { e with played := false }) ∧
    (∀ t, ∀ ev ∈ (startSequencer s now loopMs).tracks.getD t [],
      ev.played = false) ∧
    (startSequencer s now loopMs).trackLoopLengthMs = s.trackLoopLengthMs ∧
    (startSequencer s now loopMs).voices = s.voices ∧
    (startSequencer s now loopMs).lastChannelInstrument =
      s.lastChannelInstrument := by
  refine ⟨rfl, rfl, rfl, rfl, ?_, rfl, rfl, rfl⟩
  intro t ev hev
  have : (startSequencer s now loopMs).tracks.getD t [] =
      List.map (fun e => { e with played := false }) (s.tracks.getD t []) :=
    listGetD_map_nilmap _ rfl s.tracks t
  rw [this] at hev
  obtain ⟨ev0, _, rfl⟩ := List.mem_map.mp hev
  rfl

/-- Witness for C8: starting from a stopped state with a pending voice. -/
theorem claim_C8_start_resets_witness :
    (startSequencer wStateC 7 0).sequencerRunning = true ∧
    (startSequencer wStateC 7 0).sequencerStartMs = 7 ∧
    (startSequencer wStateC 7 0).globalLoopMs = 0 ∧
    (startSequencer wStateC 7 0).voices = wStateC.voices :=
  ⟨(claim_C8_start_resets wStateC 7 0).1,
   (claim_C8_start_resets wStateC 7 0).2.1,
   (claim_C8_start_resets wStateC 7 0).2.2.1,
   (claim_C8_start_resets wStateC 7 0).2.2.2.2.2.2.1⟩

/-- Claim C9: while running, the modulus `update()` divides by is never
zero: it is `globalLoopMs` when that is positive, otherwise the maximum
derived track length (an upper bound of every entry) with 1 substituted when
that maximum is 0; consequently the computed position always lies strictly
below the effective loop length. -/
theorem claim_C9_loop_length_guard (s : MidiState) (now : Nat)
    (hrun : s.sequencerRunning = true) :
    0 < effectiveLoopLength s ∧
    (0 < s.globalLoopMs → effectiveLoopLength s = s.globalLoopMs) ∧
    (s.globalLoopMs = 0 →
      effectiveLoopLength s =
        if maxTrackLen s.trackLoopLengthMs = 0 then 1
        else maxTrackLen s.trackLoopLengthMs) ∧
    (∀ x ∈ s.trackLoopLengthMs, x ≤ maxTrackLen s.trackLoopLengthMs) ∧
    position s now < effectiveLoopLength s := by
  refine ⟨effectiveLoopLength_pos s, ?_, ?_, ?_,
    position_lt_effectiveLoopLength s now⟩
  · intro hg
    unfold effectiveLoopLength
    rw [if_pos hg]
  · intro hg
    unfold effectiveLoopLength
    rw [if_neg (by omega)]
  · intro x hx
    exact mem_le_foldl_max s.trackLoopLengthMs 0 x hx

/-- Witness for C9 at a concrete running state. -/
theorem claim_C9_loop_length_guard_witness :
    0 < effectiveLoopLength wStateA ∧
    position wStateA 15 < effectiveLoopLength wStateA :=
  ⟨(claim_C9_loop_length_guard wStateA 15 (by decide)).1,
   (claim_C9_loop_length_guard wStateA 15 (by decide)).2.2.2.2⟩

/-- Claim C10: an event whose offset is at least the effective loop length
is never fired while the sequencer runs with that loop length: since the
computed position is strictly below the effective loop length, the firing
condition `timeOffsetMs ≤ position` cannot hold, so an `update()` leaves
such an unplayed event exactly as it was. -/
theorem claim_C10_beyond_loop_never_fires (s : MidiState) (now t i : Nat)
    (ev : SeqEvent) (hrun : s.sequencerRunning = true)
    (hev : (s.tracks.getD t [])[i]? = some ev)
    (hoff : effectiveLoopLength s ≤ ev.timeOffsetMs)
    (hpl : ev.played = false) :
    ((update s now).1.tracks.getD t [])[i]? = some ev := by
  have htr : (update s now).1.tracks =
      s.tracks.map (List.map (eventFlagStep (position s now))) := by
    rw [update_running s now hrun]
  rw [htr, listGetD_map_nilmap (List.map (eventFlagStep (position s now)))
    rfl, List.getElem?_map, hev, Option.map_some']
  have hpos : position s now < effectiveLoopLength s :=
    position_lt_effectiveLoopLength s now
  have hnofire : shouldFire (position s now) ev = false := by
    unfold shouldFire
    simp only [hpl, Bool.not_false, Bool.true_and, decide_eq_false_iff_not]
    omega
  unfold eventFlagStep
  rw [hnofire]
  simp [hpl]

/-- Witness for C10: in `wStateB` the only event has offset 10 while the
explicit loop length is 8; an update at clock 3 leaves it untouched. -/
theorem claim_C10_beyond_loop_never_fires_witness :
    ((update wStateB 3).1.tracks.getD 0 [])[0]? =
      some ⟨10, 0, 0, 60, 100, 5, false⟩ :=
  claim_C10_beyond_loop_never_fires wStateB 3 0 0 ⟨10, 0, 0, 60, 100, 5, false⟩
    (by decide) (by decide) (by decide) (by decide)

end VS1053
